import Mathlib

/-!
# Verification of the aleo-remote-prover service

Shallow embedding of the remote proving service: the network registry and
endpoint construction (`src/config.rs`, `src/lib.rs`), the explorer program
fetcher (`src/programs.rs`), the program resolver `ensure_programs_available`
(`src/programs.rs`), the proving pipeline `prove_transaction`
(`src/proving.rs`), and the `/prove` HTTP handlers (`src/server.rs` and the
older self-contained `src/lib.rs`).

External collaborators (the snarkvm VM, the HTTP client, JSON codec) are
modelled as oracles/environments supplying the results the code consumes;
the control flow, branching and data handling of the repository's own code
are translated statement by statement from the Rust source.
-/

namespace RemoteProver

/-! ## Network registry (src/config.rs lines 4-40, src/lib.rs lines 18-44)

Both copies of the code define the same `Network` enum, `base_url`,
`endpoint` and `broadcast_endpoint`. -/

inductive Network
  | mainnet
  | testnet
  | canary
  deriving DecidableEq, Repr

/-- `Network::base_url` (src/config.rs lines 13-19). -/
def Network.base_url : Network → String
  | .mainnet => "https://api.explorer.provable.com/v2/mainnet"
  | .testnet => "https://api.explorer.provable.com/v2/testnet"
  | .canary => "https://api.explorer.provable.com/v2/canary"

/-- Rust `str::trim_end_matches('/')`: remove every trailing `/`. -/
def trimEndSlashes (s : String) : String :=
  String.mk ((s.toList.reverse.dropWhile (· == '/')).reverse)

/-- Rust `str::trim_start_matches('/')`: remove every leading `/`. -/
def trimStartSlashes (s : String) : String :=
  String.mk (s.toList.dropWhile (· == '/'))

/-- `Network::endpoint` (src/config.rs lines 21-25): join the trimmed base
and the trimmed path with a single `/`. -/
def Network.endpoint (n : Network) (path : String) : String :=
  trimEndSlashes n.base_url ++ "/" ++ trimStartSlashes path

/-- `Network::broadcast_endpoint` (src/config.rs lines 27-29). -/
def Network.broadcast_endpoint (n : Network) : String :=
  n.endpoint "transaction/broadcast"

/-! ## Consensus / Varuna version selection (src/proving.rs lines 42-53)

`ConsensusVersion` is the snarkvm protocol-epoch enum (ordered by variant);
`VarunaVersion` is the SNARK variant enum. `prove_transaction` chooses the
Varuna version with
`if (ConsensusVersion::V1..=ConsensusVersion::V3).contains(&consensus_version)`.
-/

inductive ConsensusVersion
  | V1 | V2 | V3 | V4 | V5 | V6 | V7 | V8 | V9 | V10
  deriving DecidableEq, Repr

def ConsensusVersion.toNat : ConsensusVersion → Nat
  | .V1 => 1 | .V2 => 2 | .V3 => 3 | .V4 => 4 | .V5 => 5
  | .V6 => 6 | .V7 => 7 | .V8 => 8 | .V9 => 9 | .V10 => 10

instance : LE ConsensusVersion := ⟨fun a b => a.toNat ≤ b.toNat⟩

instance (a b : ConsensusVersion) : Decidable (a ≤ b) :=
  inferInstanceAs (Decidable (a.toNat ≤ b.toNat))

inductive VarunaVersion
  | V1
  | V2
  deriving DecidableEq, Repr

/-- Rust `RangeInclusive::contains`: `lo <= v && v <= hi` under the derived
variant order. -/
def consensusRangeContains (lo hi v : ConsensusVersion) : Bool :=
  decide (lo ≤ v) && decide (v ≤ hi)

/-- The `varuna_version` selection in `prove_transaction`
(src/proving.rs lines 48-53). It is a function of the consensus version
alone; no configuration value reaches it. -/
def varunaVersionFor (consensus_version : ConsensusVersion) : VarunaVersion :=
  if consensusRangeContains .V1 .V3 consensus_version then
    VarunaVersion.V1
  else
    VarunaVersion.V2

/-! ## Explorer HTTP fetches (src/programs.rs lines 14-66)

An HTTP response is modelled by its status code and body text.
`reqwest::StatusCode::is_success` is `200 <= status <= 299`. -/

structure HttpResponse where
  status : Nat
  body : String
  deriving Repr

def statusIsSuccess (status : Nat) : Bool :=
  200 ≤ status && status ≤ 299

/-- Rust `str::trim`: strip surrounding whitespace (ASCII whitespace in
this model). Implemented over the character list so that it reduces. -/
def trimAscii (s : String) : String :=
  String.mk
    (((s.toList.dropWhile Char.isWhitespace).reverse.dropWhile
      Char.isWhitespace).reverse)

/-- Rust `str::starts_with(c)` for a single character. -/
def startsWithChar (s : String) (c : Char) : Bool :=
  match s.toList with
  | [] => false
  | a :: _ => a == c

def digitsToNat (cs : List Char) : Nat :=
  cs.foldl (fun acc c => acc * 10 + (c.toNat - 48)) 0

def parseU16Chars (t : List Char) : Option Nat :=
  if t.isEmpty then none
  else if t.all Char.isDigit then
    if digitsToNat t < 65536 then some (digitsToNat t) else none
  else none

/-- Rust `u16::from_str` (radix 10): optional leading `+`, then one or more
ASCII digits, value below `2^16`; anything else is a parse error. -/
def parseU16 (s : String) : Option Nat :=
  parseU16Chars
    (match s.toList with
     | '+' :: rest => rest
     | cs => cs)

/-- `fetch_latest_edition` (src/programs.rs lines 14-49), as a function of
the explorer's HTTP response for `GET .../program/id/latest_edition`:
non-success status 404 yields `none`; any other non-success status is an
error carrying the status; a success status parses the trimmed body as a
decimal `u16`. -/
def fetch_latest_edition (program_id : String) (resp : HttpResponse) :
    Except String (Option Nat) :=
  if !statusIsSuccess resp.status then
    if resp.status = 404 then
      Except.ok none
    else
      Except.error ("Latest edition request for '" ++ program_id ++
        "' failed with status " ++ toString resp.status)
  else
    match parseU16 (trimAscii resp.body) with
    | some edition => Except.ok (some edition)
    | none => Except.error ("Failed to parse edition number for '" ++
        program_id ++ "'")

/-! ## URL construction (src/programs.rs lines 51-66 and 191-210)

A parsed absolute `reqwest::Url` is modelled by its list of path segments
(the scheme/host part is fixed by the base and plays no role in the
claims). `path_segments_mut` on a non-absolute base fails fast in the
source before any fetch; the model covers absolute bases. -/

/-- `PathSegmentsMut::pop_if_empty`: remove one trailing empty segment. -/
def popIfEmpty (segs : List String) : List String :=
  match segs.getLast? with
  | some "" => segs.dropLast
  | _ => segs

/-- `build_latest_edition_url` (src/programs.rs lines 51-66). -/
def build_latest_edition_url (base : List String) (program_id : String) :
    List String :=
  popIfEmpty base ++ ["program", program_id, "latest_edition"]

/-- `build_program_url` (src/programs.rs lines 191-210): appends the
edition segment exactly when an edition is supplied. -/
def build_program_url (base : List String) (program_id : String)
    (edition : Option Nat) : List String :=
  popIfEmpty base ++ ["program", program_id] ++
    (match edition with
     | some e => [toString e]
     | none => [])

/-! ## Program fetching (src/programs.rs lines 142-189)

A snarkvm `Program` is modelled by its identity and its ordered imports.
The explorer, the serde JSON string decoder and the snarkvm program parser
and `add_program_with_edition` validator are external collaborators,
modelled as an environment of oracles. -/

structure RProgram where
  id : String
  imports : List String
  deriving DecidableEq, Repr

structure ResolveEnv where
  /-- Explorer response for `GET base/program/id/latest_edition`. -/
  editionResp : String → HttpResponse
  /-- Explorer response for a program `GET` at the given URL. -/
  programResp : List String → HttpResponse
  /-- `serde_json::from_str::<String>` on a body that starts with `"`. -/
  decodeJsonString : String → Except String String
  /-- `Program::from_str` on the decoded source. -/
  parseProgram : String → Except String RProgram
  /-- Whether `Process::add_program_with_edition` accepts the program. -/
  addOk : RProgram → Nat → Bool

/-- The observable outcome of `fetch_remote_program_with_edition`: which
`latest_edition` and program requests were issued, and the result. -/
structure FetchOutcome where
  editionRequests : List String
  programRequests : List (String × List String)
  result : Except String (RProgram × Nat)
  deriving Repr

/-- The program `GET` of `fetch_remote_program_with_edition`
(src/programs.rs lines 151-188): request the edition-qualified URL, sniff
a leading `"` after trimming to JSON-decode the body, parse the source. -/
def fetchProgramBody (env : ResolveEnv) (base : List String)
    (program_id : String) (edition : Nat) : Except String RProgram :=
  let url := build_program_url base program_id (some edition)
  let resp := env.programResp url
  if !statusIsSuccess resp.status then
    .error ("Program '" ++ program_id ++
      "' request failed with status " ++ toString resp.status)
  else
    let trimmed := trimAscii resp.body
    let sourceE : Except String String :=
      if startsWithChar trimmed '"' then
        match env.decodeJsonString trimmed with
        | .ok s => .ok s
        | .error _ => .error ("Failed to decode program '" ++ program_id ++ "'")
      else .ok resp.body
    match sourceE with
    | .error e => .error e
    | .ok source =>
        match env.parseProgram source with
        | .error _ => .error ("Failed to parse program '" ++ program_id ++ "'")
        | .ok program => .ok program

/-- `fetch_remote_program_with_edition` (src/programs.rs lines 142-189):
always requests the latest edition first, substitutes `0` when the
explorer reports no edition (`unwrap_or(0)`), then requests the program
at the edition-qualified URL. -/
def fetch_remote_program_with_edition (env : ResolveEnv) (base : List String)
    (program_id : String) : FetchOutcome :=
  match fetch_latest_edition program_id (env.editionResp program_id) with
  | .error e =>
      { editionRequests := [program_id], programRequests := [], result := .error e }
  | .ok latest =>
      let edition := latest.getD 0
      { editionRequests := [program_id],
        programRequests := [(program_id, build_program_url base program_id (some edition))],
        result := (fetchProgramBody env base program_id edition).map
          (fun p => (p, edition)) }

/-! ## The program resolver (src/programs.rs lines 68-140) -/

/-- `credits.aleo`, assumed pre-loaded and skipped by the resolver. -/
def creditsProgramId : String := "credits.aleo"

/-- Which `Process` install API an install used. `programs.rs` only ever
calls `add_program_with_edition`; the older resolver in `lib.rs` only ever
calls `add_program`. -/
inductive InstallApi
  | plain
  | withEdition
  deriving DecidableEq, Repr

structure InstallEvent where
  programId : String
  edition : Nat
  api : InstallApi
  deriving DecidableEq, Repr

/-- The registry (ids present in the `Process`), the resolver's local
`scheduled` set and `pending` vector, plus ghost logs of the explorer
requests issued and the installs performed. -/
structure ResolveState where
  registry : List String
  scheduled : List String
  pending : List (RProgram × Nat)
  editionFetches : List String
  programFetches : List (String × List String)
  installs : List InstallEvent
  deriving DecidableEq, Repr

def initResolveState (registry : List String) : ResolveState :=
  { registry := registry, scheduled := [], pending := [],
    editionFetches := [], programFetches := [], installs := [] }

/-- Rust `Iterator::position`: index of the first element satisfying `p`. -/
def position (p : α → Bool) : List α → Option Nat
  | [] => none
  | a :: as => if p a then some 0 else (position p as).map (· + 1)

/-- Rust `Vec::swap_remove(i)`: overwrite index `i` with the last element
and drop the last element. -/
def swapRemoveAt (l : List α) (i : Nat) : List α :=
  match l.getLast? with
  | none => []
  | some last => (l.set i last).dropLast

/-- The `while let Some((program_id, ready)) = stack.pop()` loop of
`ensure_programs_available` (src/programs.rs lines 95-137). The stack is a
list with its head as the top. The Rust loop needs no fuel (the
`scheduled` set bounds it); `fuel` only makes the recursion structural,
and exhausting it reports an error so that completed runs are exactly the
runs the source completes. -/
def resolveLoop (env : ResolveEnv) (base : List String) :
    Nat → List (String × Bool) → ResolveState → ResolveState × Option String
  | _, [], st => (st, none)
  | 0, _ :: _, st => (st, some "out of fuel")
  | fuel + 1, (program_id, ready) :: rest, st =>
    if program_id = creditsProgramId then
      resolveLoop env base fuel rest st
    else if program_id ∈ st.registry then
      resolveLoop env base fuel rest st
    else if ready then
      match position (fun pe => pe.1.id == program_id) st.pending with
      | some idx =>
          match st.pending.get? idx with
          | none => (st, some "impossible: position out of range")
          | some pe =>
              let st₁ := { st with pending := swapRemoveAt st.pending idx }
              if pe.1.id ∈ st₁.registry then
                resolveLoop env base fuel rest st₁
              else if env.addOk pe.1 pe.2 then
                let st₂ := { st₁ with
                  registry := pe.1.id :: st₁.registry,
                  installs := st₁.installs ++
                    [⟨pe.1.id, pe.2, InstallApi.withEdition⟩] }
                resolveLoop env base fuel rest st₂
              else
                (st₁, some ("Failed to add program '" ++ program_id ++ "'"))
      | none => resolveLoop env base fuel rest st
    else if program_id ∈ st.scheduled then
      resolveLoop env base fuel rest st
    else
      let fo := fetch_remote_program_with_edition env base program_id
      let st₁ := { st with
        scheduled := program_id :: st.scheduled,
        editionFetches := st.editionFetches ++ fo.editionRequests,
        programFetches := st.programFetches ++ fo.programRequests }
      match fo.result with
      | .error e => (st₁, some e)
      | .ok (program, edition) =>
          let st₂ := { st₁ with pending := st₁.pending ++ [(program, edition)] }
          resolveLoop env base fuel
            (program.imports.reverse.map (fun i => (i, false)) ++
              (program_id, true) :: rest) st₂

/-- `ensure_programs_available` (src/programs.rs lines 68-140). The seed
stack is the authorization's pending requests followed by its transitions
(a `Vec` popped from the end, hence reversed here). The `Url::parse`
failure path is prior to all claim-relevant behavior and is omitted; the
parsed base is passed directly. -/
def ensure_programs_available (env : ResolveEnv) (base : List String)
    (fuel : Nat) (requests transitions : List String)
    (registry : List String) : ResolveState × Option String :=
  resolveLoop env base fuel
    ((requests ++ transitions).reverse.map (fun pid => (pid, false)))
    (initResolveState registry)

/-! ## Minimal JSON values

`serde_json::Value`, restricted to what the service constructs. Object
insertion in the handlers always adds a fresh key, so insertion is
modelled as appending the field. -/

inductive Json
  | null
  | bool (b : Bool)
  | num (n : Nat)
  | str (s : String)
  | arr (xs : List Json)
  | obj (fields : List (String × Json))

def Json.getKey? : Json → String → Option Json
  | .obj fields, k => (fields.find? (fun f => f.1 == k)).map (fun f => f.2)
  | _, _ => none

def Json.hasKey (j : Json) (k : String) : Bool :=
  (j.getKey? k).isSome

def Json.insertKey : Json → String → Json → Json
  | .obj fields, k, v => .obj (fields ++ [(k, v)])
  | j, _, _ => j

/-- `truncate_for_log` (src/server.rs lines 275-283, src/lib.rs lines
520-528): keep the first `maxLen` characters, appending `…` when
something was cut. -/
def truncate_for_log (input : String) (maxLen : Nat) : String :=
  if input.toList.length ≤ maxLen then input
  else String.mk (input.toList.take maxLen) ++ "…"

/-! ## The proving pipeline (src/proving.rs)

The snarkvm objects (`Query`, `Trace`, `Execution`, `Fee`, `Transaction`)
are opaque; every VM call the pipeline makes is an oracle of the
environment, in source order, each able to fail. -/

structure RResponse where
  outputIds : List String
  outputs : List String

structure CallMetric where
  programId : String
  functionName : String
  instructions : Nat
  requestConstraints : Nat
  functionConstraints : Nat
  responseConstraints : Nat

structure RTrace where
  /-- `trace.transitions().len()`. -/
  transitions : Nat
  isFee : Bool
  callMetrics : List CallMetric

structure RExecution where
  toExecutionId : Except String String

structure RFee where
  isPrivate : Bool
  isPublic : Bool
  amount : Except String Nat
  baseAmount : Except String Nat
  priorityAmount : Except String Nat
  payer : Option String
  transitionId : String
  globalStateRoot : String
  numFinalizeOperations : Nat

structure RTransaction where
  isDeploy : Bool
  isFee : Bool
  id : String

/-- `FeeInfo` (src/proving.rs lines 10-20). -/
structure FeeInfo where
  kind : String
  transition_id : String
  amount_microcredits : String
  base_microcredits : String
  priority_microcredits : String
  payer : Option String
  global_state_root : String
  num_finalize_operations : Nat

/-- `ProvingArtifacts` (src/proving.rs lines 22-27). -/
structure ProvingArtifacts where
  summary : Json
  transaction : RTransaction
  execution_id : String
  fee_info : Option FeeInfo

/-- The VM/query calls `prove_transaction` consumes, in source order. -/
structure ProveEnv where
  queryInit : Except String Unit
  currentBlockHeight : Except String Nat
  consensusVersionAt : Nat → Except String ConsensusVersion
  peekNext : Except String (String × String)
  checkEditionMain : ConsensusVersion → Except String Unit
  checkRecordsMain : ConsensusVersion → Except String Unit
  executeMain : Except String (RResponse × RTrace)
  prepareMain : Except String Unit
  proveExecution : String → VarunaVersion → Except String RExecution
  feeCheckEdition : ConsensusVersion → Except String Unit
  feeCheckRecords : ConsensusVersion → Except String Unit
  executeFee : Except String RTrace
  prepareFee : Except String Unit
  proveFee : VarunaVersion → Except String RFee
  fromExecution : RExecution → Option RFee → Except String RTransaction

/-- `build_fee_info` (src/proving.rs lines 154-183). -/
def build_fee_info (fee : RFee) : Except String FeeInfo := do
  let kind ←
    if fee.isPrivate then pure "private"
    else if fee.isPublic then pure "public"
    else Except.error "Fee transition is neither private nor public"
  let amount_microcredits ← fee.amount.map toString
  let base_microcredits ← fee.baseAmount.map toString
  let priority_microcredits ← fee.priorityAmount.map toString
  pure { kind := kind,
         transition_id := fee.transitionId,
         amount_microcredits := amount_microcredits,
         base_microcredits := base_microcredits,
         priority_microcredits := priority_microcredits,
         payer := fee.payer,
         global_state_root := fee.globalStateRoot,
         num_finalize_operations := fee.numFinalizeOperations }

def callMetricsJson (trace : RTrace) : Json :=
  .arr (trace.callMetrics.map (fun m => .obj
    [("program_id", .str m.programId),
     ("function", .str m.functionName),
     ("instructions", .num m.instructions),
     ("request_constraints", .num m.requestConstraints),
     ("function_constraints", .num m.functionConstraints),
     ("response_constraints", .num m.responseConstraints)]))

def summaryJson (locator : String) (response : RResponse) (trace : RTrace) : Json :=
  .obj [("locator", .str locator),
        ("output_ids", .arr (response.outputIds.map Json.str)),
        ("outputs", .arr (response.outputs.map Json.str)),
        ("transitions", .num trace.transitions),
        ("call_metrics", callMetricsJson trace),
        ("is_fee", .bool trace.isFee)]

/-- The fee branch of `prove_transaction` (src/proving.rs lines 110-133):
executed exactly when a fee authorization was supplied. -/
def prove_fee_section (env : ProveEnv) (consensus_version : ConsensusVersion)
    (varuna_version : VarunaVersion) (fee_authorization : Option Unit) :
    Except String (Option RFee × Option FeeInfo) :=
  match fee_authorization with
  | some _ => do
      let _ ← env.feeCheckEdition consensus_version
      let _ ← env.feeCheckRecords consensus_version
      let _feeTrace ← env.executeFee
      let _ ← env.prepareFee
      let fee ← env.proveFee varuna_version
      let fi ← build_fee_info fee
      pure (some fee, some fi)
  | none => pure (none, none)

/-- `prove_transaction` (src/proving.rs lines 29-152). The fee
authorization is present or absent; its VM content is behind the fee
oracles. -/
def prove_transaction (env : ProveEnv) (fee_authorization : Option Unit) :
    Except String ProvingArtifacts := do
  let _ ← env.queryInit
  let height ← env.currentBlockHeight
  let consensus_version ← env.consensusVersionAt height
  let varuna_version := varunaVersionFor consensus_version
  let (pid, fname) ← env.peekNext
  let locator := pid ++ "/" ++ fname
  let _ ← env.checkEditionMain consensus_version
  let _ ← env.checkRecordsMain consensus_version
  let (response, trace) ← env.executeMain
  let _ ← env.prepareMain
  let execution ← env.proveExecution locator varuna_version
  let execution_id ← execution.toExecutionId
  let summary := summaryJson locator response trace
  let feePair ← prove_fee_section env consensus_version varuna_version
    fee_authorization
  let transaction ← env.fromExecution execution feePair.1
  pure { summary := summary, transaction := transaction,
         execution_id := execution_id, fee_info := feePair.2 }

/-! ## The current `/prove` handler (src/server.rs lines 50-242)

Admission-relevant actions are recorded as ghost events. -/

inductive ServerEvent
  | ensureOk
  | acquirePermit
  | dispatchWorker
  | releasePermit
  | broadcastPost
  deriving DecidableEq, Repr

structure HandlerResult where
  status : Nat
  body : Json
  events : List ServerEvent

/-- `ProveRequest` (src/model.rs lines 17-30). -/
structure ProveRequestM where
  authorization : Json
  fee_authorization : Option Json
  broadcast : Option Bool
  network : Option Network

/-- The collaborators `handle_prove` in server.rs consumes. `NETWORK` and
the static `ProverConfig::broadcast_endpoint` and endpoint getters live in
the crate root, which is not among the sources; they are carried as
opaque strings here. -/
structure ServerEnv where
  /-- `parse_authorization(label, payload)` (src/server.rs lines 244-252). -/
  parseAuthorization : String → Json → Except String Unit
  ensureMain : Except String Unit
  ensureFee : Except String Unit
  /-- The `spawn_blocking` join result; an error is a worker panic. -/
  join : Except String Unit
  proveEnv : ProveEnv
  networkName : String
  serializeTransaction : RTransaction → Except String String
  parseTransactionJson : String → Except String Json
  broadcastEndpoint : String
  broadcastSend : Except String HttpResponse

/-- The broadcast metadata object (src/server.rs lines 186-226): the
endpoint is `ProverConfig::broadcast_endpoint()`, the payload the
serialized transaction, and the response body and payload preview are
truncated to 256 characters. -/
def broadcastMeta (env : ServerEnv) (transaction_preview : String) : Json :=
  match env.broadcastSend with
  | .ok resp => Json.obj
      [("requested", .bool true),
       ("endpoint", .str env.broadcastEndpoint),
       ("status", .num resp.status),
       ("success", .bool (statusIsSuccess resp.status)),
       ("response", .str (truncate_for_log resp.body 256)),
       ("payload_preview", .str transaction_preview)]
  | .error err => Json.obj
      [("requested", .bool true),
       ("endpoint", .str env.broadcastEndpoint),
       ("success", .bool false),
       ("error", .str err),
       ("payload_preview", .str transaction_preview)]

/-- The `transaction_type` string (src/server.rs lines 139-145). -/
def transactionTypeOf (t : RTransaction) : String :=
  if t.isDeploy then "deploy"
  else if t.isFee then "fee"
  else "execute"

/-- `error_reply` / `bad_request` bodies (src/server.rs lines 261-273). -/
def errorBody (message : String) : Json :=
  .obj [("status", .str "error"), ("message", .str message)]

/-- Serde serialization of `FeeInfo` (plain derive: `payer` is `null`
when absent). -/
def feeInfoJson (fi : FeeInfo) : Json :=
  .obj [("kind", .str fi.kind),
        ("transition_id", .str fi.transition_id),
        ("amount_microcredits", .str fi.amount_microcredits),
        ("base_microcredits", .str fi.base_microcredits),
        ("priority_microcredits", .str fi.priority_microcredits),
        ("payer", match fi.payer with | some p => .str p | none => .null),
        ("global_state_root", .str fi.global_state_root),
        ("num_finalize_operations", .num fi.num_finalize_operations)]

/-- The fee-authorization parse step of `handle_prove`
(src/server.rs lines 68-80): `ok true` when a fee authorization was
supplied and parses, `ok false` when none was supplied. -/
def feeParseStep (env : ServerEnv) (req : ProveRequestM) : Except String Bool :=
  match req.fee_authorization with
  | some payload =>
      (env.parseAuthorization "fee_authorization" payload).map (fun _ => true)
  | none => .ok false

/-- `handle_prove` (src/server.rs lines 50-242). -/
def handle_prove (env : ServerEnv) (req : ProveRequestM) : HandlerResult :=
  match env.parseAuthorization "authorization" req.authorization with
  | .error err => { status := 400, body := errorBody err, events := [] }
  | .ok _ =>
    match feeParseStep env req with
    | .error err => { status := 400, body := errorBody err, events := [] }
    | .ok hasFee =>
      match env.ensureMain with
      | .error err => { status := 500, body := errorBody err, events := [] }
      | .ok _ =>
        match (if hasFee then env.ensureFee else .ok ()) with
        | .error err => { status := 500, body := errorBody err, events := [] }
        | .ok _ =>
          match env.join with
          | .error joinErr =>
              { status := 500,
                body := errorBody ("Worker panicked while proving: " ++ joinErr),
                events := [.ensureOk, .dispatchWorker] }
          | .ok _ =>
            match prove_transaction env.proveEnv
                (if hasFee then some () else none) with
            | .error err =>
                { status := 500, body := errorBody err,
                  events := [.ensureOk, .dispatchWorker] }
            | .ok artifacts =>
              let transaction_id := artifacts.transaction.id
              let transaction_type := transactionTypeOf artifacts.transaction
              match env.serializeTransaction artifacts.transaction with
              | .error err =>
                  { status := 500,
                    body := errorBody ("Failed to serialize transaction: " ++ err),
                    events := [.ensureOk, .dispatchWorker] }
              | .ok transaction_string =>
                match env.parseTransactionJson transaction_string with
                | .error err =>
                    { status := 500,
                      body := errorBody ("Failed to parse transaction JSON: " ++ err),
                      events := [.ensureOk, .dispatchWorker] }
                | .ok transaction_value =>
                  let transaction_preview := truncate_for_log transaction_string 256
                  let base := Json.obj
                    [("status", .str "success"),
                     ("network", .str env.networkName),
                     ("transaction_id", .str transaction_id),
                     ("transaction_type", .str transaction_type),
                     ("execution_id", .str artifacts.execution_id),
                     ("transaction", transaction_value),
                     ("transaction_payload", .str transaction_string),
                     ("summary", artifacts.summary)]
                  let withFee := match artifacts.fee_info with
                    | some fi => base.insertKey "fee" (feeInfoJson fi)
                    | none => base
                  let broadcast_requested := req.broadcast.getD true
                  if broadcast_requested then
                    { status := 200,
                      body := withFee.insertKey "broadcast"
                        (broadcastMeta env transaction_preview),
                      events := [.ensureOk, .dispatchWorker, .broadcastPost] }
                  else
                    { status := 200,
                      body := withFee.insertKey "broadcast"
                        (Json.obj [("requested", Json.bool false)]),
                      events := [.ensureOk, .dispatchWorker] }

/-! ## The older `/prove` handler (src/lib.rs lines 150-375)

This self-contained version guards proving with
`Semaphore::new(config.max_concurrent_proofs().max(1))` (line 161),
acquiring a permit after `ensure_programs_available` and before
`spawn_blocking`, and dropping it on the join-error path (line 289) and
on the normal path (line 300). Only the admission-relevant control flow
is modelled; the response bodies are not needed by any claim about this
handler. -/

/-- The capacity of the semaphore built in `prover_routes`
(src/lib.rs line 161). -/
def libSemaphoreCapacity (max_concurrent_proofs : Nat) : Nat :=
  max max_concurrent_proofs 1

structure LibEnv where
  /-- `req.authorization_json()` (src/lib.rs lines 217-221). -/
  toCompact : Except String String
  /-- `Authorization::from_str` on the compact string. -/
  parseAuth : String → Except String Unit
  ensure : Except String Unit
  /-- `spawn_blocking` join; an error is a worker panic. -/
  join : Except String Unit
  /-- The `process.execute` result inside the worker. -/
  execute : Except String Unit

structure LibRequest where
  broadcast : Option Bool
  network : Option Network

structure LibResult where
  status : Nat
  events : List ServerEvent

/-- `handle_prove` in src/lib.rs lines 223-375, reduced to its admission
discipline: status code plus the ordered ghost events. -/
def lib_handle_prove (env : LibEnv) (req : LibRequest) : LibResult :=
  match env.toCompact with
  | .error _ => { status := 400, events := [] }
  | .ok authorization_json =>
    match env.parseAuth authorization_json with
    | .error _ => { status := 400, events := [] }
    | .ok _ =>
      match env.ensure with
      | .error _ => { status := 500, events := [] }
      | .ok _ =>
        match env.join with
        | .error _ =>
            { status := 500,
              events := [.ensureOk, .acquirePermit, .dispatchWorker,
                .releasePermit] }
        | .ok _ =>
          match env.execute with
          | .ok _ =>
              if req.broadcast.getD true then
                { status := 200,
                  events := [.ensureOk, .acquirePermit, .dispatchWorker,
                    .releasePermit, .broadcastPost] }
              else
                { status := 200,
                  events := [.ensureOk, .acquirePermit, .dispatchWorker,
                    .releasePermit] }
          | .error _ =>
              { status := 500,
                events := [.ensureOk, .acquirePermit, .dispatchWorker,
                  .releasePermit] }

/-! ## Claim-level predicates and concrete environments -/

/-- The explorer behaves consistently with the fetch contract: a
successfully fetched program declares the identity it was requested
under. -/
def IdConsistent (env : ResolveEnv) (base : List String) : Prop :=
  ∀ pid p e,
    (fetch_remote_program_with_edition env base pid).result = .ok (p, e) →
    p.id = pid

/-- The claimed install behavior as a function of
`enforce_program_editions`: with the flag on, installs go through
`add_program_with_edition`; with the flag off, installs go through
`add_program` and no edition is ever fetched. -/
def editionInstallClaim (enforce : Bool) (st : ResolveState) : Prop :=
  if enforce then
    ∀ ev ∈ st.installs, ev.api = InstallApi.withEdition
  else
    (∀ ev ∈ st.installs, ev.api = InstallApi.plain) ∧ st.editionFetches = []

/-- The claimed admission discipline: a request that dispatches a proving
worker has acquired a semaphore permit. -/
def admissionClaim (r : HandlerResult) : Prop :=
  ServerEvent.dispatchWorker ∈ r.events → ServerEvent.acquirePermit ∈ r.events

/-- A one-program explorer used for concrete runs: `demo.aleo` at
edition 3, no imports. -/
def demoEnv : ResolveEnv :=
  { editionResp := fun _ => ⟨200, "3"⟩,
    programResp := fun _ => ⟨200, "program demo.aleo;"⟩,
    decodeJsonString := fun _ => .error "unused",
    parseProgram := fun _ => .ok ⟨"demo.aleo", []⟩,
    addOk := fun _ _ => true }

def demoBase : List String := ["v2", "testnet"]

/-- An explorer whose `latest_edition` endpoint always answers 404 and
which serves exactly the program `p404.aleo` (no imports) at its
edition-qualified URL. -/
def env404 : ResolveEnv :=
  { editionResp := fun _ => ⟨404, ""⟩,
    programResp := fun url =>
      if url = build_program_url demoBase "p404.aleo" (some 0) then
        ⟨200, "source-p404"⟩
      else ⟨500, ""⟩,
    decodeJsonString := fun _ => .error "unused",
    parseProgram := fun s =>
      if s = "source-p404" then .ok ⟨"p404.aleo", []⟩
      else .error "unparseable",
    addOk := fun _ _ => true }

/-- A fully succeeding proving environment for concrete handler runs. -/
def okProveEnv : ProveEnv :=
  { queryInit := .ok (),
    currentBlockHeight := .ok 100,
    consensusVersionAt := fun _ => .ok .V4,
    peekNext := .ok ("demo.aleo", "main"),
    checkEditionMain := fun _ => .ok (),
    checkRecordsMain := fun _ => .ok (),
    executeMain := .ok (⟨[], []⟩, ⟨1, false, []⟩),
    prepareMain := .ok (),
    proveExecution := fun _ _ => .ok ⟨.ok "exec-1"⟩,
    feeCheckEdition := fun _ => .ok (),
    feeCheckRecords := fun _ => .ok (),
    executeFee := .ok ⟨1, true, []⟩,
    prepareFee := .ok (),
    proveFee := fun _ => .ok
      { isPrivate := false, isPublic := true,
        amount := .ok 5, baseAmount := .ok 4, priorityAmount := .ok 1,
        payer := some "aleo1payer", transitionId := "t-1",
        globalStateRoot := "root-1", numFinalizeOperations := 1 },
    fromExecution := fun _ _ => .ok ⟨false, false, "tx-1"⟩ }

/-- A fully succeeding server environment for concrete handler runs. -/
def okServerEnv : ServerEnv :=
  { parseAuthorization := fun _ _ => .ok (),
    ensureMain := .ok (),
    ensureFee := .ok (),
    join := .ok (),
    proveEnv := okProveEnv,
    networkName := "testnet",
    serializeTransaction := fun _ => .ok "txjson",
    parseTransactionJson := fun _ => .ok (Json.obj []),
    broadcastEndpoint := "https://api.explorer.provable.com/v2/testnet/transaction/broadcast",
    broadcastSend := .ok ⟨200, "accepted"⟩ }

def reqPlain : ProveRequestM :=
  { authorization := Json.obj [], fee_authorization := none,
    broadcast := none, network := none }

def reqNoBroadcast : ProveRequestM :=
  { authorization := Json.obj [], fee_authorization := none,
    broadcast := some false, network := none }

def reqWithFee : ProveRequestM :=
  { authorization := Json.obj [], fee_authorization := some (Json.obj []),
    broadcast := some false, network := none }

/-- The loop invariant tying the resolver's `scheduled` set, `pending`
vector and work stack together: `credits.aleo` is never scheduled, every
ready stack entry is scheduled, and every scheduled id is either already
installed or still has its ready entry on the stack backed by a pending
program of that id. -/
def ResolveInv (stack : List (String × Bool)) (st : ResolveState) : Prop :=
  creditsProgramId ∉ st.scheduled ∧
  (∀ pid, (pid, true) ∈ stack → pid ∈ st.scheduled) ∧
  (∀ pid ∈ st.scheduled, pid ∈ st.registry ∨
    ((pid, true) ∈ stack ∧ ∃ pe ∈ st.pending, pe.1.id = pid))

/-- The program `pid` was fetched successfully as `(p, e)`. -/
def FetchedOk (env : ResolveEnv) (base : List String) (pid : String)
    (p : RProgram) (e : Nat) : Prop :=
  (fetch_remote_program_with_edition env base pid).result = .ok (p, e)

/-! # Theorems -/

/-- **C2.** In `prove_transaction`, the chosen `varuna_version` is `V1`
exactly when the resolved consensus version lies in the closed range
`V1..=V3`, and `V2` for every other consensus version. The selection
`varunaVersionFor` is a function of the consensus version alone, so it
cannot depend on any configuration. -/
theorem c2_varuna_version_rule :
    ∀ v : ConsensusVersion,
      (varunaVersionFor v = VarunaVersion.V1 ↔
        (ConsensusVersion.V1 ≤ v ∧ v ≤ ConsensusVersion.V3)) ∧
      (varunaVersionFor v = VarunaVersion.V2 ↔
        ¬(ConsensusVersion.V1 ≤ v ∧ v ≤ ConsensusVersion.V3)) := by
  intro v
  cases v <;> exact ⟨by decide, by decide⟩

/-- **C7 (counterexample).** `broadcast_endpoint` on mainnet does not end
in `?check_transaction=true`: the code builds the bare
`/transaction/broadcast` path. -/
theorem c7_check_transaction_counterexample :
    Network.broadcast_endpoint Network.mainnet ≠
      Network.base_url Network.mainnet ++
        "/transaction/broadcast?check_transaction=true" := by
  decide

/-- **C7 (amended).** For every network, `broadcast_endpoint` equals the
network's REST base URL followed by `/transaction/broadcast`, with no
query parameter. -/
theorem c7_broadcast_endpoint :
    ∀ n : Network,
      Network.broadcast_endpoint n =
        Network.base_url n ++ "/transaction/broadcast" := by
  intro n
  cases n <;> rfl

/-- Successful `parseU16` results fit in a `u16`. -/
theorem parseU16Chars_lt (t : List Char) (n : Nat)
    (h : parseU16Chars t = some n) : n < 65536 := by
  unfold parseU16Chars at h
  split at h
  · exact absurd h (by simp)
  · split at h
    · split at h
      · rename_i hlt
        obtain rfl : _ = n := Option.some_inj.mp h
        exact hlt
      · exact absurd h (by simp)
    · exact absurd h (by simp)

/-- Successful `parseU16` results fit in a `u16`. -/
theorem parseU16_lt (s : String) (n : Nat) (h : parseU16 s = some n) :
    n < 65536 :=
  parseU16Chars_lt _ n h

/-- **C6.** `fetch_latest_edition` returns `none` on a 404, an error
naming the status on every other non-2xx response, and on a 2xx response
returns exactly the trimmed body parsed as a decimal `u16`, erring on an
unparseable body; any returned edition is below `2^16`. -/
theorem c6_fetch_latest_edition_cases (pid : String) (resp : HttpResponse) :
    (resp.status = 404 → fetch_latest_edition pid resp = .ok none) ∧
    (statusIsSuccess resp.status = false → resp.status ≠ 404 →
      fetch_latest_edition pid resp =
        .error ("Latest edition request for '" ++ pid ++
          "' failed with status " ++ toString resp.status)) ∧
    (statusIsSuccess resp.status = true →
      (∀ n, fetch_latest_edition pid resp = .ok (some n) ↔
          parseU16 (trimAscii resp.body) = some n) ∧
      (parseU16 (trimAscii resp.body) = none →
        fetch_latest_edition pid resp =
          .error ("Failed to parse edition number for '" ++ pid ++ "'"))) ∧
    (∀ n, fetch_latest_edition pid resp = .ok (some n) → n < 65536) := by
  refine ⟨?_, ?_, ?_, ?_⟩
  · intro h404
    have hsf : statusIsSuccess 404 = false := by decide
    simp [fetch_latest_edition, h404, hsf]
  · intro hfail hne
    simp [fetch_latest_edition, hfail, hne]
  · intro hok
    have hstep : fetch_latest_edition pid resp =
        (match parseU16 (trimAscii resp.body) with
         | some edition => Except.ok (some edition)
         | none => Except.error ("Failed to parse edition number for '" ++
             pid ++ "'")) := by
      simp [fetch_latest_edition, hok]
    constructor
    · intro n
      constructor
      · intro h
        rw [hstep] at h
        cases hp : parseU16 (trimAscii resp.body) with
        | some e =>
            rw [hp] at h
            have he : e = n := by simpa using h
            exact congrArg some he
        | none =>
            rw [hp] at h
            exact absurd h (by simp)
      · intro h
        rw [hstep, h]
    · intro hnone
      rw [hstep, hnone]
  · intro n h
    by_cases hok : statusIsSuccess resp.status = true
    · have hstep : fetch_latest_edition pid resp =
          (match parseU16 (trimAscii resp.body) with
           | some edition => Except.ok (some edition)
           | none => Except.error ("Failed to parse edition number for '" ++
               pid ++ "'")) := by
        simp [fetch_latest_edition, hok]
      rw [hstep] at h
      cases hp : parseU16 (trimAscii resp.body) with
      | some e =>
          rw [hp] at h
          have he : e = n := by simpa using h
          exact he ▸ parseU16_lt _ e hp
      | none =>
          rw [hp] at h
          exact absurd h (by simp)
    · have hfail : statusIsSuccess resp.status = false :=
        Bool.not_eq_true _ ▸ (by simpa using hok)
      by_cases h404 : resp.status = 404
      · have hsf : statusIsSuccess 404 = false := by decide
        have : fetch_latest_edition pid resp = .ok none := by
          simp [fetch_latest_edition, h404, hsf]
        rw [this] at h
        exact absurd h (by simp)
      · have : fetch_latest_edition pid resp =
            .error ("Latest edition request for '" ++ pid ++
              "' failed with status " ++ toString resp.status) := by
          simp [fetch_latest_edition, hfail, h404]
        rw [this] at h
        exact absurd h (by simp)

/-- **C6 (witness).** The three branches at concrete responses. -/
theorem c6_fetch_latest_edition_cases_witness :
    fetch_latest_edition "demo.aleo" ⟨404, ""⟩ = .ok none ∧
    fetch_latest_edition "demo.aleo" ⟨500, "x"⟩ =
      .error "Latest edition request for 'demo.aleo' failed with status 500" ∧
    fetch_latest_edition "demo.aleo" ⟨200, " 7 "⟩ = .ok (some 7) ∧
    fetch_latest_edition "demo.aleo" ⟨200, "seven"⟩ =
      .error "Failed to parse edition number for 'demo.aleo'" :=
  ⟨(c6_fetch_latest_edition_cases "demo.aleo" ⟨404, ""⟩).1 rfl,
   (c6_fetch_latest_edition_cases "demo.aleo" ⟨500, "x"⟩).2.1 (by decide)
     (by decide),
   ((c6_fetch_latest_edition_cases "demo.aleo" ⟨200, " 7 "⟩).2.2.1
     (by decide)).1 7 |>.mpr (by decide),
   ((c6_fetch_latest_edition_cases "demo.aleo" ⟨200, "seven"⟩).2.2.1
     (by decide)).2 (by decide)⟩

/-! ### Helper lemmas about `position` and the fetch outcome -/

theorem position_get (p : α → Bool) (l : List α) (i : Nat)
    (h : position p l = some i) :
    ∀ a, l.get? i = some a → p a = true := by
  induction l generalizing i with
  | nil => simp [position] at h
  | cons x xs ih =>
    intro a ha
    by_cases hx : p x = true
    · simp [position, hx] at h
      subst h
      rw [List.get?_cons_zero] at ha
      cases ha
      exact hx
    · simp [position, hx] at h
      obtain ⟨j, hj, rfl⟩ := h
      rw [List.get?_cons_succ] at ha
      exact ih j hj a ha


theorem position_none (p : α → Bool) (l : List α)
    (h : position p l = none) : ∀ a ∈ l, p a = false := by
  induction l with
  | nil => simp
  | cons x xs ih =>
    by_cases hx : p x = true
    · simp [position, hx] at h
    · intro a ha
      simp [position, hx] at h
      rcases List.mem_cons.mp ha with rfl | hmem
      · simpa using hx
      · exact ih h a hmem

theorem fetch_editionRequests (env : ResolveEnv) (base : List String)
    (pid : String) :
    (fetch_remote_program_with_edition env base pid).editionRequests =
      [pid] := by
  unfold fetch_remote_program_with_edition
  split <;> rfl

theorem fetch_programRequests_shape (env : ResolveEnv) (base : List String)
    (pid : String) :
    (fetch_remote_program_with_edition env base pid).programRequests = [] ∨
      ∃ ed, (fetch_remote_program_with_edition env base pid).programRequests =
        [(pid, build_program_url base pid (some ed))] := by
  unfold fetch_remote_program_with_edition
  split
  · exact Or.inl rfl
  · rename_i latest _
    exact Or.inr ⟨latest.getD 0, rfl⟩

theorem fetch_log_step (env : ResolveEnv) (base : List String) (pid : String)
    (st : ResolveState)
    (h2 : ∀ pu ∈ st.programFetches, pu.1 ∈ st.editionFetches) :
    ∀ pu ∈ st.programFetches ++
        (fetch_remote_program_with_edition env base pid).programRequests,
      pu.1 ∈ st.editionFetches ++
        (fetch_remote_program_with_edition env base pid).editionRequests := by
  intro pu hpu
  rcases List.mem_append.mp hpu with h | h
  · exact List.mem_append.mpr (Or.inl (h2 pu h))
  · rcases fetch_programRequests_shape env base pid with hsh | ⟨ed, hsh⟩
    · rw [hsh] at h
      simp at h
    · rw [hsh] at h
      simp at h
      rw [fetch_editionRequests]
      subst h
      simp

/-- Along every run of the resolver loop, installs only ever use
`add_program_with_edition`, and every program fetch is preceded by an
edition fetch for the same id. -/
theorem resolveLoop_edition_discipline (env : ResolveEnv) (base : List String) :
    ∀ fuel stack st,
      (∀ ev ∈ st.installs, ev.api = InstallApi.withEdition) →
      (∀ pu ∈ st.programFetches, pu.1 ∈ st.editionFetches) →
      (∀ ev ∈ (resolveLoop env base fuel stack st).1.installs,
          ev.api = InstallApi.withEdition) ∧
      (∀ pu ∈ (resolveLoop env base fuel stack st).1.programFetches,
          pu.1 ∈ (resolveLoop env base fuel stack st).1.editionFetches) := by
  intro fuel
  induction fuel with
  | zero =>
      intro stack st h1 h2
      cases stack with
      | nil => exact ⟨h1, h2⟩
      | cons hd tl => exact ⟨h1, h2⟩
  | succ f ih =>
      intro stack st h1 h2
      cases stack with
      | nil => exact ⟨h1, h2⟩
      | cons hd tl =>
          obtain ⟨pid, ready⟩ := hd
          simp only [resolveLoop]
          split
          · exact ih tl st h1 h2
          · split
            · exact ih tl st h1 h2
            · split
              · split
                · split
                  · exact ⟨h1, h2⟩
                  · rename_i pe _
                    split
                    · exact ih tl _ h1 h2
                    · split
                      · refine ih tl _ ?_ h2
                        intro ev hev
                        rcases List.mem_append.mp hev with hev | hev
                        · exact h1 ev hev
                        · simp at hev
                          rw [hev]
                      · exact ⟨h1, h2⟩
                · exact ih tl st h1 h2
              · split
                · exact ih tl st h1 h2
                · split
                  · exact ⟨h1, fetch_log_step env base pid st h2⟩
                  · exact ih _ _ h1 (fetch_log_step env base pid st h2)

/-- **C1 (counterexample).** A concrete run of the resolver with
`enforce_program_editions = false`: `demo.aleo` is nonetheless installed
via `add_program_with_edition` with a fetched edition. The flag is not an
input of `ensure_programs_available` at all (src/programs.rs lines
68-140), so its value cannot influence the install path. -/
theorem c1_flag_counterexample :
    ¬ editionInstallClaim false
        (ensure_programs_available demoEnv demoBase 10
          ["demo.aleo"] [] []).1 := by
  intro h
  have h1 := h.1 ⟨"demo.aleo", 3, InstallApi.withEdition⟩ (by decide)
  exact absurd h1 (by decide)

/-- **C1 (amended).** `ensure_programs_available` never consults
`enforce_program_editions`: for every environment, seed set and starting
registry — hence for both values of the flag — every install it performs
goes through `add_program_with_edition`, and an edition fetch is issued
for every program it fetches. -/
theorem c1_resolver_ignores_edition_flag (env : ResolveEnv)
    (base : List String) (fuel : Nat)
    (requests transitions registry : List String) :
    (∀ ev ∈ (ensure_programs_available env base fuel requests transitions
        registry).1.installs, ev.api = InstallApi.withEdition) ∧
    (∀ pu ∈ (ensure_programs_available env base fuel requests transitions
        registry).1.programFetches,
      pu.1 ∈ (ensure_programs_available env base fuel requests transitions
        registry).1.editionFetches) :=
  resolveLoop_edition_discipline env base fuel _ _
    (by intro ev hev; simp [initResolveState] at hev)
    (by intro pu hpu; simp [initResolveState] at hpu)

/-- Along every run of the resolver loop, `credits.aleo` is never the
subject of an edition fetch, a program fetch, or an install. -/
theorem resolveLoop_credits_skipped (env : ResolveEnv) (base : List String) :
    ∀ fuel stack st,
      creditsProgramId ∉ st.editionFetches →
      (∀ pu ∈ st.programFetches, pu.1 ≠ creditsProgramId) →
      (∀ ev ∈ st.installs, ev.programId ≠ creditsProgramId) →
      creditsProgramId ∉ (resolveLoop env base fuel stack st).1.editionFetches ∧
      (∀ pu ∈ (resolveLoop env base fuel stack st).1.programFetches,
          pu.1 ≠ creditsProgramId) ∧
      (∀ ev ∈ (resolveLoop env base fuel stack st).1.installs,
          ev.programId ≠ creditsProgramId) := by
  intro fuel
  induction fuel with
  | zero =>
      intro stack st h1 h2 h3
      cases stack with
      | nil => exact ⟨h1, h2, h3⟩
      | cons hd tl => exact ⟨h1, h2, h3⟩
  | succ f ih =>
      intro stack st h1 h2 h3
      cases stack with
      | nil => exact ⟨h1, h2, h3⟩
      | cons hd tl =>
          obtain ⟨pid, ready⟩ := hd
          simp only [resolveLoop]
          split
          · exact ih tl st h1 h2 h3
          · rename_i hpid
            split
            · exact ih tl st h1 h2 h3
            · split
              · split
                · rename_i idx hpos
                  split
                  · exact ⟨h1, h2, h3⟩
                  · rename_i pe hget
                    split
                    · exact ih tl _ h1 h2 h3
                    · split
                      · refine ih tl _ h1 h2 ?_
                        intro ev hev
                        rcases List.mem_append.mp hev with hev | hev
                        · exact h3 ev hev
                        · simp at hev
                          rw [hev]
                          simp only []
                          have hid : pe.1.id = pid := by
                            have := position_get _ _ _ hpos pe hget
                            exact eq_of_beq this
                          rw [hid]
                          exact hpid
                      · exact ⟨h1, h2, h3⟩
                · exact ih tl st h1 h2 h3
              · split
                · exact ih tl st h1 h2 h3
                · rename_i hsched
                  have h1' : creditsProgramId ∉ st.editionFetches ++
                      (fetch_remote_program_with_edition env base pid).editionRequests := by
                    rw [fetch_editionRequests]
                    intro hmem
                    rcases List.mem_append.mp hmem with hmem | hmem
                    · exact h1 hmem
                    · simp at hmem
                      exact hpid hmem.symm
                  have h2' : ∀ pu ∈ st.programFetches ++
                      (fetch_remote_program_with_edition env base pid).programRequests,
                      pu.1 ≠ creditsProgramId := by
                    intro pu hpu
                    rcases List.mem_append.mp hpu with hpu | hpu
                    · exact h2 pu hpu
                    · rcases fetch_programRequests_shape env base pid with hsh | ⟨ed, hsh⟩
                      · rw [hsh] at hpu
                        simp at hpu
                      · rw [hsh] at hpu
                        simp at hpu
                        rw [hpu]
                        exact hpid
                  split
                  · exact ⟨h1', h2', h3⟩
                  · exact ih _ _ h1' h2' h3

/-- **C8.** For every environment, seed set and starting registry, the
resolver never fetches `credits.aleo` (neither its edition nor its
source) and never installs it. -/
theorem c8_credits_never_fetched_or_installed (env : ResolveEnv)
    (base : List String) (fuel : Nat)
    (requests transitions registry : List String) :
    creditsProgramId ∉ (ensure_programs_available env base fuel requests
      transitions registry).1.editionFetches ∧
    (∀ pu ∈ (ensure_programs_available env base fuel requests transitions
        registry).1.programFetches, pu.1 ≠ creditsProgramId) ∧
    (∀ ev ∈ (ensure_programs_available env base fuel requests transitions
        registry).1.installs, ev.programId ≠ creditsProgramId) :=
  resolveLoop_credits_skipped env base fuel _ _
    (by simp [initResolveState])
    (by intro pu hpu; simp [initResolveState] at hpu)
    (by intro ev hev; simp [initResolveState] at hev)

/-- Unfolding helper: an `Except` bind succeeds exactly when both stages
succeed. -/
theorem except_bind_ok {α β : Type} {m : Except String α}
    {k : α → Except String β} {b : β} :
    (m >>= k) = .ok b ↔ ∃ x, m = .ok x ∧ k x = .ok b := by
  cases m <;> simp [Bind.bind, Except.bind]

/-- On success, the fee section produces fee info exactly when a fee
authorization was supplied. -/
theorem prove_fee_section_isSome (env : ProveEnv) (cv : ConsensusVersion)
    (vv : VarunaVersion) (fa : Option Unit)
    (fp : Option RFee × Option FeeInfo)
    (h : prove_fee_section env cv vv fa = .ok fp) :
    fp.2.isSome = fa.isSome := by
  cases fa with
  | none =>
      unfold prove_fee_section at h
      simp only [pure, Except.pure, Except.ok.injEq] at h
      rw [← h]
      rfl
  | some u =>
      unfold prove_fee_section at h
      simp only [except_bind_ok, pure, Except.pure, Except.ok.injEq] at h
      obtain ⟨_, _, _, _, ft, _, _, _, fee, _, fi, _, hfp⟩ := h
      rw [← hfp]
      rfl

/-- On success, `prove_transaction` produces fee info exactly when a fee
authorization was supplied. -/
theorem prove_transaction_fee_info (env : ProveEnv) (fa : Option Unit)
    (a : ProvingArtifacts) (h : prove_transaction env fa = .ok a) :
    a.fee_info.isSome = fa.isSome := by
  unfold prove_transaction at h
  simp only [except_bind_ok, pure, Except.pure, Except.ok.injEq] at h
  obtain ⟨_, _, _, _, _, _, ⟨pid, fname⟩, _, _, _, _, _, ⟨resp, trace⟩, _,
    _, _, ex, _, eid, _, fp, hfp, txv, _, ha⟩ := h
  rw [← ha]
  exact prove_fee_section_isSome env _ _ fa fp hfp

/-- The fee-parse step of `handle_prove` succeeds with `true` exactly when
the request carried a `fee_authorization`. -/
theorem feeParse_isSome (env : ServerEnv) (req : ProveRequestM)
    (hasFee : Bool) (h : feeParseStep env req = Except.ok hasFee) :
    req.fee_authorization.isSome = hasFee := by
  unfold feeParseStep at h
  cases hq : req.fee_authorization with
  | none =>
      rw [hq] at h
      simp at h
      simp [h.symm]
  | some p =>
      rw [hq] at h
      simp only [Except.map] at h
      cases hp : env.parseAuthorization "fee_authorization" p with
      | error e =>
          rw [hp] at h
          simp at h
      | ok u =>
          rw [hp] at h
          simp at h
          simp [h.symm]

/-- **C4.** A `/prove` request that completes with a 200 success response
carries a top-level `fee` object in its body if and only if the request
supplied a `fee_authorization`. -/
theorem c4_fee_section_iff (env : ServerEnv) (req : ProveRequestM) :
    (handle_prove env req).status = 200 →
    ((handle_prove env req).body.hasKey "fee" = true ↔
      req.fee_authorization.isSome = true) := by
  unfold handle_prove
  split
  · intro h; simp at h
  · split
    · intro h; simp at h
    · rename_i hasFee hfeeParse
      split
      · intro h; simp at h
      · split
        · intro h; simp at h
        · split
          · intro h; simp at h
          · split
            · intro h; simp at h
            · rename_i artifacts hart
              split
              · intro h; simp at h
              · split
                · intro h; simp at h
                · intro _
                  have hfa : req.fee_authorization.isSome = hasFee :=
                    feeParse_isSome env req hasFee hfeeParse
                  have hfi : artifacts.fee_info.isSome = hasFee := by
                    have := prove_transaction_fee_info env.proveEnv
                      (if hasFee then some () else none) artifacts hart
                    rw [this]
                    cases hasFee <;> rfl
                  dsimp only
                  split
                  · split
                    · rename_i fi hfi2
                      rw [hfi2] at hfi
                      constructor
                      · intro _
                        rw [hfa]
                        simpa using hfi.symm
                      · intro _
                        rfl
                    · rename_i hfi2
                      rw [hfi2] at hfi
                      constructor
                      · intro hk
                        exact Bool.noConfusion hk
                      · intro hk
                        rw [hfa, ← hfi] at hk
                        simp at hk
                  · split
                    · rename_i fi hfi2
                      rw [hfi2] at hfi
                      constructor
                      · intro _
                        rw [hfa]
                        simpa using hfi.symm
                      · intro _
                        rfl
                    · rename_i hfi2
                      rw [hfi2] at hfi
                      constructor
                      · intro hk
                        exact Bool.noConfusion hk
                      · intro hk
                        rw [hfa, ← hfi] at hk
                        simp at hk

/-- **C4 (witness).** With an all-succeeding environment, the success
response carries `fee` exactly for the request that supplied a fee
authorization. -/
theorem c4_fee_section_iff_witness :
    (handle_prove okServerEnv reqWithFee).body.hasKey "fee" = true ∧
    (handle_prove okServerEnv reqNoBroadcast).body.hasKey "fee" = false :=
  ⟨(c4_fee_section_iff okServerEnv reqWithFee (by decide)).mpr (by decide),
   by
    have h := c4_fee_section_iff okServerEnv reqNoBroadcast (by decide)
    by_cases hk : (handle_prove okServerEnv reqNoBroadcast).body.hasKey
        "fee" = true
    · exact absurd (h.mp hk) (by decide)
    · simpa using hk⟩

/-- **C5.** On a 200 success response, an omitted or `true` `broadcast`
field leads to the outbound broadcast POST being attempted, while
`broadcast = false` suppresses the POST on every path and puts a
`broadcast` object with `requested = false` into the success body. -/
theorem c5_broadcast_flag (env : ServerEnv) (req : ProveRequestM) :
    ((handle_prove env req).status = 200 →
      (req.broadcast = none ∨ req.broadcast = some true) →
      ServerEvent.broadcastPost ∈ (handle_prove env req).events) ∧
    (req.broadcast = some false →
      ServerEvent.broadcastPost ∉ (handle_prove env req).events ∧
      ((handle_prove env req).status = 200 →
        (handle_prove env req).body.getKey? "broadcast" =
          some (Json.obj [("requested", Json.bool false)]))) := by
  unfold handle_prove
  split
  · exact ⟨fun h => by simp at h, fun hb => ⟨by simp, fun h => by simp at h⟩⟩
  · split
    · exact ⟨fun h => by simp at h, fun hb => ⟨by simp, fun h => by simp at h⟩⟩
    · split
      · exact ⟨fun h => by simp at h, fun hb => ⟨by simp, fun h => by simp at h⟩⟩
      · split
        · exact ⟨fun h => by simp at h, fun hb => ⟨by simp, fun h => by simp at h⟩⟩
        · split
          · exact ⟨fun h => by simp at h, fun hb =>
              ⟨by simp, fun h => by simp at h⟩⟩
          · split
            · exact ⟨fun h => by simp at h, fun hb =>
                ⟨by simp, fun h => by simp at h⟩⟩
            · split
              · exact ⟨fun h => by simp at h, fun hb =>
                  ⟨by simp, fun h => by simp at h⟩⟩
              · split
                · exact ⟨fun h => by simp at h, fun hb =>
                    ⟨by simp, fun h => by simp at h⟩⟩
                · dsimp only
                  split
                  · rename_i hbr
                    refine ⟨fun _ _ => by simp, fun hb => ?_⟩
                    rw [hb] at hbr
                    simp at hbr
                  · rename_i hbr
                    refine ⟨fun _ hor => ?_, fun hb => ⟨by simp, fun _ => ?_⟩⟩
                    · rcases hor with h | h <;> rw [h] at hbr <;> simp at hbr
                    · split <;> rfl

/-- **C5 (witness).** With an all-succeeding environment: an omitted
`broadcast` leads to a POST; `broadcast=false` leads to no POST and a
`requested=false` broadcast object. -/
theorem c5_broadcast_flag_witness :
    ServerEvent.broadcastPost ∈ (handle_prove okServerEnv reqPlain).events ∧
    ServerEvent.broadcastPost ∉
      (handle_prove okServerEnv reqNoBroadcast).events ∧
    (handle_prove okServerEnv reqNoBroadcast).body.getKey? "broadcast" =
      some (Json.obj [("requested", Json.bool false)]) :=
  ⟨(c5_broadcast_flag okServerEnv reqPlain).1 (by decide) (Or.inl rfl),
   ((c5_broadcast_flag okServerEnv reqNoBroadcast).2 rfl).1,
   ((c5_broadcast_flag okServerEnv reqNoBroadcast).2 rfl).2 (by decide)⟩

/-- **C3 (counterexample).** A concrete fully-successful `/prove` request
through the current handler (src/server.rs) dispatches the proving worker
without ever acquiring a semaphore permit: `handle_prove` has no
admission control. -/
theorem c3_no_admission_counterexample :
    ¬ admissionClaim (handle_prove okServerEnv reqPlain) := by
  intro h
  exact absurd (h (by decide)) (by decide)

/-- **C3 (amended).** The semaphore only exists in the older handler in
src/lib.rs: there, `prover_routes` sizes it to
`max_concurrent_proofs.max(1)` and every request trace is either empty
(rejected before admission) or acquires exactly one permit after
successful program resolution, dispatches the worker, and releases the
permit on every exit path. The current handler in src/server.rs performs
no semaphore operation at all, so nothing bounds its in-flight proving
workers. -/
theorem c3_admission_discipline :
    (∀ mcp : Nat, libSemaphoreCapacity mcp = max 1 mcp) ∧
    (∀ (env : LibEnv) (req : LibRequest),
      (lib_handle_prove env req).events = [] ∨
      (lib_handle_prove env req).events =
        [ServerEvent.ensureOk, ServerEvent.acquirePermit,
         ServerEvent.dispatchWorker, ServerEvent.releasePermit] ∨
      (lib_handle_prove env req).events =
        [ServerEvent.ensureOk, ServerEvent.acquirePermit,
         ServerEvent.dispatchWorker, ServerEvent.releasePermit,
         ServerEvent.broadcastPost]) ∧
    (∀ (env : ServerEnv) (req : ProveRequestM),
      ServerEvent.acquirePermit ∉ (handle_prove env req).events ∧
      ServerEvent.releasePermit ∉ (handle_prove env req).events) := by
  refine ⟨fun mcp => Nat.max_comm mcp 1, ?_, ?_⟩
  · intro env req
    unfold lib_handle_prove
    split
    · exact Or.inl rfl
    · split
      · exact Or.inl rfl
      · split
        · exact Or.inl rfl
        · split
          · exact Or.inr (Or.inl rfl)
          · split
            · split
              · exact Or.inr (Or.inr rfl)
              · exact Or.inr (Or.inl rfl)
            · exact Or.inr (Or.inl rfl)
  · intro env req
    unfold handle_prove
    repeat' split
    all_goals try (dsimp only; split <;> simp)
    all_goals simp

theorem position_lt (p : α → Bool) (l : List α) (i : Nat)
    (h : position p l = some i) : i < l.length := by
  induction l generalizing i with
  | nil => simp [position] at h
  | cons x xs ih =>
    by_cases hx : p x = true
    · simp [position, hx] at h
      subst h
      simp
    · simp [position, hx] at h
      obtain ⟨j, hj, rfl⟩ := h
      simpa using ih j hj

theorem mem_of_getLast?_eq (l : List α) (a : α) (h : l.getLast? = some a) :
    a ∈ l := by
  rw [List.getLast?_eq_getElem?] at h
  obtain ⟨hlt, he⟩ := List.getElem?_eq_some_iff.mp h
  exact he ▸ List.getElem_mem hlt

theorem swapRemoveAt_subset (l : List α) (i : Nat) :
    swapRemoveAt l i ⊆ l := by
  intro a ha
  unfold swapRemoveAt at ha
  cases hl : l.getLast? with
  | none =>
      rw [hl] at ha
      simp at ha
  | some last =>
      rw [hl] at ha
      have h1 : a ∈ l.set i last := List.dropLast_subset _ ha
      rcases List.mem_or_eq_of_mem_set h1 with h | h
      · exact h
      · exact h ▸ mem_of_getLast?_eq l last hl

theorem getElem_mem_swapRemoveAt (l : List α) (i j : Nat)
    (hi : i < l.length) (hj : j < l.length) (hne : j ≠ i) :
    l[j] ∈ swapRemoveAt l i := by
  have hnil : l ≠ [] := by
    intro h
    subst h
    simp at hj
  obtain ⟨last, hlast⟩ : ∃ a, l.getLast? = some a := by
    cases hl : l.getLast? with
    | none => exact absurd (List.getLast?_eq_none_iff.mp hl) hnil
    | some a => exact ⟨a, rfl⟩
  have hlt : l.length - 1 < l.length := by omega
  have hlastval : last = l[l.length - 1] := by
    rw [List.getLast?_eq_getElem?] at hlast
    obtain ⟨h1, h2⟩ := List.getElem?_eq_some_iff.mp hlast
    exact h2.symm
  unfold swapRemoveAt
  rw [hlast]
  by_cases hj1 : j < l.length - 1
  · have hlen : j < (l.set i last).dropLast.length := by simp; omega
    have heq : (l.set i last).dropLast[j] = l[j] := by
      rw [List.getElem_dropLast]
      exact List.getElem_set_ne (fun h => hne h.symm) _
    exact heq ▸ List.getElem_mem hlen
  · have hj2 : j = l.length - 1 := by omega
    have hi1 : i < l.length - 1 := by omega
    have hlen : i < (l.set i last).dropLast.length := by simp; omega
    have heq : (l.set i last).dropLast[i] = l[j] := by
      rw [List.getElem_dropLast, List.getElem_set_self (by simpa using hi)]
      rw [hlastval]
      congr 1
      omega
    exact heq ▸ List.getElem_mem hlen

theorem mem_swapRemoveAt_of_pred_false (p : α → Bool) (l : List α) (i : Nat)
    (hpos : position p l = some i) (a : α) (ha : a ∈ l) (hpa : p a = false) :
    a ∈ swapRemoveAt l i := by
  have hi := position_lt p l i hpos
  obtain ⟨j, hj, rfl⟩ := List.mem_iff_getElem.mp ha
  refine getElem_mem_swapRemoveAt l i j hi hj ?_
  intro hji
  subst hji
  have hp := position_get p l j hpos l[j]
    (by rw [List.get?_eq_getElem?, List.getElem?_eq_getElem hj])
  rw [hpa] at hp
  exact Bool.noConfusion hp

/-- The registry only grows along the resolver loop
(src/programs.rs: programs are inserted, never removed). -/
theorem resolveLoop_registry_mono (env : ResolveEnv) (base : List String) :
    ∀ fuel stack st a, a ∈ st.registry →
      a ∈ (resolveLoop env base fuel stack st).1.registry := by
  intro fuel
  induction fuel with
  | zero =>
      intro stack st a ha
      cases stack with
      | nil => exact ha
      | cons hd tl => exact ha
  | succ f ih =>
      intro stack st a ha
      cases stack with
      | nil => exact ha
      | cons hd tl =>
          obtain ⟨pid, ready⟩ := hd
          simp only [resolveLoop]
          split
          · exact ih tl st a ha
          · split
            · exact ih tl st a ha
            · split
              · split
                · split
                  · exact ha
                  · split
                    · exact ih tl _ a ha
                    · split
                      · exact ih tl _ a (List.mem_cons_of_mem _ ha)
                      · exact ha
                · exact ih tl st a ha
              · split
                · exact ih tl st a ha
                · split
                  · exact ha
                  · exact ih _ _ a ha

/-- If a resolver run completes without error, every program id on the
work stack is `credits.aleo` or ends up in the registry. -/
theorem resolveLoop_covers (env : ResolveEnv) (base : List String)
    (hid : IdConsistent env base) :
    ∀ fuel stack st st',
      ResolveInv stack st →
      resolveLoop env base fuel stack st = (st', none) →
      ∀ pid b, (pid, b) ∈ stack →
        pid = creditsProgramId ∨ pid ∈ st'.registry := by
  intro fuel
  induction fuel with
  | zero =>
      intro stack st st' hinv hrun pid b hmem
      cases stack with
      | nil => simp at hmem
      | cons hd tl =>
          simp only [resolveLoop] at hrun
          exact absurd hrun (by simp)
  | succ f ih =>
      intro stack st st' hinv hrun pid b hmem
      cases stack with
      | nil => simp at hmem
      | cons hd tl =>
          obtain ⟨qid, qb⟩ := hd
          obtain ⟨hc0, hc1, hc2⟩ := hinv
          simp only [resolveLoop] at hrun
          split at hrun
          · -- qid is credits.aleo: skip
            rename_i hq
            have hinv' : ResolveInv tl st := by
              refine ⟨hc0, fun p hp => hc1 p (List.mem_cons_of_mem _ hp), ?_⟩
              intro p hp
              rcases hc2 p hp with h | ⟨hstk, hw⟩
              · exact Or.inl h
              · rcases List.mem_cons.mp hstk with he | he
                · exfalso
                  have h1 : p = qid := (Prod.mk.inj he).1
                  exact hc0 (by rw [← hq, ← h1]; exact hp)
                · exact Or.inr ⟨he, hw⟩
            rcases List.mem_cons.mp hmem with he | he
            · left
              rw [(Prod.mk.inj he).1]
              exact hq
            · exact ih tl st st' hinv' hrun pid b he
          · split at hrun
            · -- qid already installed: skip
              rename_i hq hreg
              have hinv' : ResolveInv tl st := by
                refine ⟨hc0, fun p hp => hc1 p (List.mem_cons_of_mem _ hp), ?_⟩
                intro p hp
                rcases hc2 p hp with h | ⟨hstk, hw⟩
                · exact Or.inl h
                · rcases List.mem_cons.mp hstk with he | he
                  · left
                    rw [(Prod.mk.inj he).1]
                    exact hreg
                  · exact Or.inr ⟨he, hw⟩
              rcases List.mem_cons.mp hmem with he | he
              · right
                have hmono := resolveLoop_registry_mono env base f tl st qid hreg
                rw [hrun] at hmono
                rw [(Prod.mk.inj he).1]
                exact hmono
              · exact ih tl st st' hinv' hrun pid b he
            · split at hrun
              · -- ready entry
                rename_i hq hreg hready
                split at hrun
                · -- position found idx
                  rename_i idx hpos
                  split at hrun
                  · -- get? none: aborts
                    exact absurd hrun (by simp)
                  · rename_i pe hget
                    have hpeid : pe.1.id = qid := by
                      have := position_get _ _ _ hpos pe
                        (by rw [hget])
                      exact eq_of_beq this
                    split at hrun
                    · -- re-check found it present: contradicts hreg
                      rename_i hmem2
                      rw [hpeid] at hmem2
                      exact absurd hmem2 hreg
                    · split at hrun
                      · -- install succeeded
                        rename_i hnmem2 hadd
                        have hsub := swapRemoveAt_subset st.pending idx
                        have hinv' : ResolveInv tl
                            { st with
                              pending := swapRemoveAt st.pending idx,
                              registry := pe.1.id :: st.registry,
                              installs := st.installs ++
                                [⟨pe.1.id, pe.2, InstallApi.withEdition⟩] } := by
                          refine ⟨hc0,
                            fun p hp => hc1 p (List.mem_cons_of_mem _ hp), ?_⟩
                          intro p hp
                          rcases hc2 p hp with h | ⟨hstk, pe2, hpe2, hw⟩
                          · exact Or.inl (List.mem_cons_of_mem _ h)
                          · by_cases hpq : p = qid
                            · left
                              rw [hpq, ← hpeid]
                              exact List.mem_cons_self _ _
                            · refine Or.inr ⟨?_, pe2, ?_, hw⟩
                              · rcases List.mem_cons.mp hstk with he | he
                                · exact absurd (Prod.mk.inj he).1 hpq
                                · exact he
                              · refine mem_swapRemoveAt_of_pred_false _ _ _
                                  hpos pe2 hpe2 ?_
                                rw [beq_eq_false_iff_ne, hw]
                                exact hpq
                        rcases List.mem_cons.mp hmem with he | he
                        · right
                          have hmono := resolveLoop_registry_mono env base f tl
                            { st with
                              pending := swapRemoveAt st.pending idx,
                              registry := pe.1.id :: st.registry,
                              installs := st.installs ++
                                [⟨pe.1.id, pe.2, InstallApi.withEdition⟩] }
                            qid (by
                              show qid ∈ pe.1.id :: st.registry
                              rw [hpeid]
                              exact List.mem_cons_self _ _)
                          rw [hrun] at hmono
                          rw [(Prod.mk.inj he).1]
                          exact hmono
                        · exact ih tl _ st' hinv' hrun pid b he
                      · -- add_program rejected: aborts
                        exact absurd hrun (by simp)
                · -- position none: impossible under the invariant
                  rename_i hposn
                  exfalso
                  have hqsched : qid ∈ st.scheduled := by
                    have : (qid, true) ∈ (qid, qb) :: tl := by
                      rw [← hready]
                      exact List.mem_cons_self _ _
                    exact hc1 qid this
                  rcases hc2 qid hqsched with h | ⟨_, pe2, hpe2, hw⟩
                  · exact hreg h
                  · have := position_none _ _ hposn pe2 hpe2
                    rw [show (pe2.1.id == qid) = true from beq_iff_eq.mpr hw]
                      at this
                    exact Bool.noConfusion this
              · split at hrun
                · -- already scheduled: skip
                  rename_i hq hreg hready hsched
                  have hinv' : ResolveInv tl st := by
                    refine ⟨hc0,
                      fun p hp => hc1 p (List.mem_cons_of_mem _ hp), ?_⟩
                    intro p hp
                    rcases hc2 p hp with h | ⟨hstk, hw⟩
                    · exact Or.inl h
                    · rcases List.mem_cons.mp hstk with he | he
                      · exfalso
                        exact hready (Prod.mk.inj he).2.symm
                      · exact Or.inr ⟨he, hw⟩
                  rcases List.mem_cons.mp hmem with he | he
                  · rcases hc2 qid hsched with h | ⟨hstk, hw⟩
                    · right
                      have hmono := resolveLoop_registry_mono env base f tl st
                        qid h
                      rw [hrun] at hmono
                      rw [(Prod.mk.inj he).1]
                      exact hmono
                    · rcases List.mem_cons.mp hstk with he2 | he2
                      · exact absurd (Prod.mk.inj he2).2.symm hready
                      · rw [(Prod.mk.inj he).1]
                        exact ih tl st st' hinv' hrun qid true he2
                  · exact ih tl st st' hinv' hrun pid b he
                · -- fresh id: fetch it
                  rename_i hq hreg hready hsched
                  split at hrun
                  · -- fetch failed: aborts
                    exact absurd hrun (by simp)
                  · rename_i program edition hfo
                    have hprogid : program.id = qid := hid qid program edition hfo
                    have hinv' : ResolveInv
                        (program.imports.reverse.map (fun i => (i, false)) ++
                          (qid, true) :: tl)
                        { st with
                          scheduled := qid :: st.scheduled,
                          editionFetches := st.editionFetches ++
                            (fetch_remote_program_with_edition env base
                              qid).editionRequests,
                          programFetches := st.programFetches ++
                            (fetch_remote_program_with_edition env base
                              qid).programRequests,
                          pending := st.pending ++ [(program, edition)] } := by
                      refine ⟨?_, ?_, ?_⟩
                      · intro hmemc
                        rcases List.mem_cons.mp hmemc with he | he
                        · exact hq he.symm
                        · exact hc0 he
                      · intro p hp
                        rcases List.mem_append.mp hp with he | he
                        · exfalso
                          obtain ⟨x, _, hx⟩ := List.mem_map.mp he
                          exact Bool.noConfusion (Prod.mk.inj hx).2
                        · rcases List.mem_cons.mp he with he2 | he2
                          · rw [(Prod.mk.inj he2).1]
                            exact List.mem_cons_self _ _
                          · exact List.mem_cons_of_mem _
                              (hc1 p (List.mem_cons_of_mem _ he2))
                      · intro p hp
                        rcases List.mem_cons.mp hp with he | he
                        · refine Or.inr ⟨?_, (program, edition), ?_, ?_⟩
                          · refine List.mem_append.mpr (Or.inr ?_)
                            rw [he]
                            exact List.mem_cons_self _ _
                          · exact List.mem_append.mpr (Or.inr
                              (List.mem_cons_self _ _))
                          · rw [he]
                            exact hprogid
                        · rcases hc2 p he with h | ⟨hstk, pe2, hpe2, hw⟩
                          · exact Or.inl h
                          · refine Or.inr ⟨?_, pe2,
                              List.mem_append.mpr (Or.inl hpe2), hw⟩
                            rcases List.mem_cons.mp hstk with he2 | he2
                            · exact absurd (Prod.mk.inj he2).2.symm hready
                            · exact List.mem_append.mpr (Or.inr
                                (List.mem_cons_of_mem _ he2))
                    rcases List.mem_cons.mp hmem with he | he
                    · rw [(Prod.mk.inj he).1]
                      exact ih _ _ st' hinv' hrun qid true
                        (List.mem_append.mpr (Or.inr (List.mem_cons_self _ _)))
                    · exact ih _ _ st' hinv' hrun pid b
                        (List.mem_append.mpr (Or.inr
                          (List.mem_cons_of_mem _ he)))

/-- If every id on the stack is `credits.aleo` or already installed, the
loop runs to completion touching nothing, with one unit of fuel per
stack entry. -/
theorem resolveLoop_all_present (env : ResolveEnv) (base : List String) :
    ∀ (stack : List (String × Bool)) (st : ResolveState) (fuel : Nat),
      (∀ pid b, (pid, b) ∈ stack →
        pid = creditsProgramId ∨ pid ∈ st.registry) →
      stack.length ≤ fuel →
      resolveLoop env base fuel stack st = (st, none) := by
  intro stack
  induction stack with
  | nil =>
      intro st fuel _ _
      cases fuel <;> rfl
  | cons hd tl ih =>
      intro st fuel hcov hlen
      obtain ⟨pid, b⟩ := hd
      cases fuel with
      | zero => simp at hlen
      | succ f =>
          have hlen' : tl.length ≤ f := by
            simp at hlen
            omega
          have hcov' : ∀ p bb, (p, bb) ∈ tl →
              p = creditsProgramId ∨ p ∈ st.registry :=
            fun p bb hm => hcov p bb (List.mem_cons_of_mem _ hm)
          simp only [resolveLoop]
          rcases hcov pid b (List.mem_cons_self _ _) with h | h
          · rw [if_pos h]
            exact ih st f hcov' hlen'
          · by_cases hc : pid = creditsProgramId
            · rw [if_pos hc]
              exact ih st f hcov' hlen'
            · rw [if_neg hc, if_pos h]
              exact ih st f hcov' hlen'

/-- **C9.** If `ensure_programs_available` succeeds, running it again
with the same authorization against the resulting registry finds every
needed program already present: the second run changes nothing, completes
without error, and performs zero edition fetches and zero program
fetches. (The explorer is assumed id-consistent: a fetched program
declares the id it was requested under.) -/
theorem c9_second_run_no_fetches (env : ResolveEnv) (base : List String)
    (hid : IdConsistent env base) (fuel₁ : Nat)
    (requests transitions registry : List String) (st₁ : ResolveState)
    (hrun : ensure_programs_available env base fuel₁ requests transitions
      registry = (st₁, none))
    (fuel₂ : Nat) (hfuel : (requests ++ transitions).length ≤ fuel₂) :
    ensure_programs_available env base fuel₂ requests transitions
      st₁.registry = (initResolveState st₁.registry, none) ∧
    (ensure_programs_available env base fuel₂ requests transitions
      st₁.registry).1.editionFetches = [] ∧
    (ensure_programs_available env base fuel₂ requests transitions
      st₁.registry).1.programFetches = [] := by
  have hinv : ResolveInv
      ((requests ++ transitions).reverse.map (fun pid => (pid, false)))
      (initResolveState registry) := by
    refine ⟨by simp [initResolveState], ?_, ?_⟩
    · intro p hp
      exfalso
      obtain ⟨x, _, hx⟩ := List.mem_map.mp hp
      exact Bool.noConfusion (Prod.mk.inj hx).2
    · intro p hp
      simp [initResolveState] at hp
  have hcov := resolveLoop_covers env base hid fuel₁ _ _ st₁ hinv hrun
  have hmain : ensure_programs_available env base fuel₂ requests transitions
      st₁.registry = (initResolveState st₁.registry, none) := by
    unfold ensure_programs_available
    refine resolveLoop_all_present env base _ _ fuel₂ ?_ ?_
    · intro pid b hmem
      exact hcov pid b hmem
    · simp at hfuel ⊢
      omega
  exact ⟨hmain, by rw [hmain]; rfl, by rw [hmain]; rfl⟩

/-- The concrete `env404` explorer is id-consistent: the only program it
serves is `p404.aleo`, under that id. -/
theorem env404_id_consistent : IdConsistent env404 demoBase := by
  intro pid p e h
  unfold fetch_remote_program_with_edition at h
  have hle : fetch_latest_edition pid (env404.editionResp pid) =
      Except.ok none := rfl
  rw [hle] at h
  dsimp at h
  by_cases hp : pid = "p404.aleo"
  · subst hp
    have hbody : fetchProgramBody env404 demoBase "p404.aleo" 0 =
        Except.ok ⟨"p404.aleo", []⟩ := rfl
    rw [hbody] at h
    simp [Except.map] at h
    rw [← h.1]
  · have hne : ¬(build_program_url demoBase pid (some 0) =
        build_program_url demoBase "p404.aleo" (some 0)) := by
      simp [build_program_url, popIfEmpty, demoBase]
      intro hcon
      exact absurd hcon hp
    have hbody : fetchProgramBody env404 demoBase pid 0 =
        Except.error ("Program '" ++ pid ++
          "' request failed with status " ++ toString 500) := by
      unfold fetchProgramBody
      show (if !statusIsSuccess (env404.programResp
          (build_program_url demoBase pid (some 0))).status then _ else _) = _
      rw [show env404.programResp (build_program_url demoBase pid (some 0)) =
          ⟨500, ""⟩ from by
        show (if build_program_url demoBase pid (some 0) =
            build_program_url demoBase "p404.aleo" (some 0) then
            (⟨200, "source-p404"⟩ : HttpResponse) else ⟨500, ""⟩) = ⟨500, ""⟩
        rw [if_neg hne]]
      rfl
    rw [hbody] at h
    simp [Except.map] at h

/-- **C9 (witness).** A concrete successful first run (installing
`p404.aleo`), after which a second run with fuel equal to the seed count
changes nothing and performs zero fetches. -/
theorem c9_second_run_no_fetches_witness :
    ensure_programs_available env404 demoBase 1 ["p404.aleo"] []
      (ensure_programs_available env404 demoBase 10
        ["p404.aleo"] [] []).1.registry =
      (initResolveState (ensure_programs_available env404 demoBase 10
        ["p404.aleo"] [] []).1.registry, none) ∧
    (ensure_programs_available env404 demoBase 1 ["p404.aleo"] []
      (ensure_programs_available env404 demoBase 10
        ["p404.aleo"] [] []).1.registry).1.editionFetches = [] ∧
    (ensure_programs_available env404 demoBase 1 ["p404.aleo"] []
      (ensure_programs_available env404 demoBase 10
        ["p404.aleo"] [] []).1.registry).1.programFetches = [] :=
  c9_second_run_no_fetches env404 demoBase env404_id_consistent 10
    ["p404.aleo"] [] [] _ (by decide) 1 (by decide)

theorem fetch_latest_edition_404 (pid : String) (resp : HttpResponse)
    (h : resp.status = 404) : fetch_latest_edition pid resp = .ok none := by
  have hsf : statusIsSuccess 404 = false := by decide
  simp [fetch_latest_edition, h, hsf]

/-- Every install the resolver performs carries a program and edition
that some successful fetch produced for that very id. -/
theorem resolveLoop_installs_from_fetch (env : ResolveEnv)
    (base : List String) (hid : IdConsistent env base) :
    ∀ fuel stack st,
      (∀ pe ∈ st.pending, FetchedOk env base pe.1.id pe.1 pe.2) →
      (∀ ev ∈ st.installs, ∃ p, FetchedOk env base ev.programId p ev.edition) →
      (∀ pe ∈ (resolveLoop env base fuel stack st).1.pending,
        FetchedOk env base pe.1.id pe.1 pe.2) ∧
      (∀ ev ∈ (resolveLoop env base fuel stack st).1.installs,
        ∃ p, FetchedOk env base ev.programId p ev.edition) := by
  intro fuel
  induction fuel with
  | zero =>
      intro stack st h1 h2
      cases stack with
      | nil => exact ⟨h1, h2⟩
      | cons hd tl => exact ⟨h1, h2⟩
  | succ f ih =>
      intro stack st h1 h2
      cases stack with
      | nil => exact ⟨h1, h2⟩
      | cons hd tl =>
          obtain ⟨pid, ready⟩ := hd
          simp only [resolveLoop]
          split
          · exact ih tl st h1 h2
          · split
            · exact ih tl st h1 h2
            · split
              · split
                · rename_i idx hpos
                  split
                  · exact ⟨h1, h2⟩
                  · rename_i pe hget
                    have h1' : ∀ pe2 ∈ swapRemoveAt st.pending idx,
                        FetchedOk env base pe2.1.id pe2.1 pe2.2 :=
                      fun pe2 hm => h1 pe2 (swapRemoveAt_subset _ _ hm)
                    split
                    · exact ih tl _ h1' h2
                    · split
                      · refine ih tl _ h1' ?_
                        intro ev hev
                        rcases List.mem_append.mp hev with hev | hev
                        · exact h2 ev hev
                        · simp at hev
                          subst hev
                          exact ⟨pe.1,
                            h1 pe (st.pending.get?_mem hget)⟩
                      · exact ⟨h1', h2⟩
                · exact ih tl st h1 h2
              · split
                · exact ih tl st h1 h2
                · split
                  · exact ⟨h1, h2⟩
                  · rename_i program edition hfo
                    refine ih _ _ ?_ h2
                    intro pe2 hm
                    rcases List.mem_append.mp hm with hm | hm
                    · exact h1 pe2 hm
                    · simp at hm
                      subst hm
                      show FetchedOk env base program.id program edition
                      rw [hid pid program edition hfo]
                      exact hfo

/-- **C10.** When the explorer answers 404 for a program's latest
edition, `fetch_remote_program_with_edition` substitutes edition 0,
requests exactly the edition-qualified URL `base/program/id/0` — which is
distinct from the unversioned `base/program/id` — its successful result
carries edition 0, and every install of that program performed by the
resolver uses edition 0. -/
theorem c10_edition_default_zero (env : ResolveEnv) (base : List String)
    (hid : IdConsistent env base) (pid : String)
    (h404 : (env.editionResp pid).status = 404)
    (fuel : Nat) (requests transitions registry : List String) :
    (fetch_remote_program_with_edition env base pid).programRequests =
      [(pid, build_program_url base pid (some 0))] ∧
    build_program_url base pid (some 0) ≠ build_program_url base pid none ∧
    (∀ p e, (fetch_remote_program_with_edition env base pid).result =
      .ok (p, e) → e = 0) ∧
    (∀ ev ∈ (ensure_programs_available env base fuel requests transitions
        registry).1.installs, ev.programId = pid → ev.edition = 0) := by
  have hle := fetch_latest_edition_404 pid (env.editionResp pid) h404
  have hfo : fetch_remote_program_with_edition env base pid =
      { editionRequests := [pid],
        programRequests := [(pid, build_program_url base pid (some 0))],
        result := (fetchProgramBody env base pid 0).map (fun p => (p, 0)) } := by
    unfold fetch_remote_program_with_edition
    rw [hle]
    rfl
  have hzero : ∀ p e, (fetch_remote_program_with_edition env base
      pid).result = .ok (p, e) → e = 0 := by
    intro p e hres
    rw [hfo] at hres
    dsimp at hres
    cases hb : fetchProgramBody env base pid 0 with
    | error msg =>
        rw [hb] at hres
        simp [Except.map] at hres
    | ok prog =>
        rw [hb] at hres
        simp [Except.map] at hres
        exact hres.2.symm
  refine ⟨by rw [hfo], ?_, hzero, ?_⟩
  · intro hcon
    have := congrArg List.length hcon
    simp [build_program_url] at this
  · intro ev hev hevpid
    have hml := resolveLoop_installs_from_fetch env base hid fuel
      ((requests ++ transitions).reverse.map (fun q => (q, false)))
      (initResolveState registry)
      (by intro pe hm; simp [initResolveState] at hm)
      (by intro e2 hm; simp [initResolveState] at hm)
    unfold ensure_programs_available at hev
    obtain ⟨p, hp⟩ := hml.2 ev hev
    rw [hevpid] at hp
    exact hzero p ev.edition hp

/-- **C10 (witness).** The concrete 404-answering explorer: the program
request for `p404.aleo` goes to the `/0`-qualified URL and the resolver
installs it with edition 0. -/
theorem c10_edition_default_zero_witness :
    (env404.editionResp "p404.aleo").status = 404 ∧
    ((fetch_remote_program_with_edition env404 demoBase
        "p404.aleo").programRequests =
      [("p404.aleo", build_program_url demoBase "p404.aleo" (some 0))] ∧
    build_program_url demoBase "p404.aleo" (some 0) ≠
      build_program_url demoBase "p404.aleo" none ∧
    (∀ p e, (fetch_remote_program_with_edition env404 demoBase
      "p404.aleo").result = .ok (p, e) → e = 0) ∧
    (∀ ev ∈ (ensure_programs_available env404 demoBase 10 ["p404.aleo"] []
        []).1.installs, ev.programId = "p404.aleo" → ev.edition = 0)) :=
  ⟨rfl, c10_edition_default_zero env404 demoBase env404_id_consistent
    "p404.aleo" rfl 10 ["p404.aleo"] [] []⟩
